import Mathlib

/-!
# Verification of the tame-tree reactive tree-synchronization engine

This file is a shallow embedding of the core of the `tame-tree` Rust library:
the tree data model (`src/tree/values.rs`, `basictree.rs`, `treenode.rs`),
the address algebra (`src/tree/address.rs`), tree changes
(`src/tree/change.rs`), the subscription registry
(`src/component/subscriptionmanager.rs`), the immediate publisher
(`src/component/immediate_publisher.rs`), the change bus
(`src/component/bus_publisher.rs`) and the hub (`src/component/hub.rs`).

Reference-counted sharing (`Rc<TreeNode>`) is modelled by giving every
allocated node an identity number (`id`): every place the Rust code calls
`Rc::new(...)` the model allocates a fresh id from a supply counter that is
threaded through the functions, and every place the Rust code clones an `Rc`
the model reuses the existing term unchanged.  Two node terms are the same
reference exactly when they are equal as terms (in a run whose initial tree
has ids below the initial supply, a fresh id can never collide with an old
one), so reference identity ("structural sharing") is term equality here.

Callbacks (`Box<FnMut(&TreeChange)>`) are opaque effectful closures in Rust;
the models of the subscription registry, the bus and the immediate publisher
take the observable effect of each callback as an explicit function argument
(the subscriptions a registry callback adds, resp. the changes a bus or
publisher callback publishes) and additionally record the invocation log.
-/

/-- `TreeValue` from `src/tree/values.rs`: `Nothing | Bool | Int(i32) |
Real(f64) | String | Data(Vec<u8>)`.  The numeric payloads are carried
uninterpreted (no modelled code path computes with them): the `f64` payload
is represented by its bit pattern. -/
inductive TreeValue where
  | nothing : TreeValue
  | bool (b : Bool) : TreeValue
  | int (i : Int) : TreeValue
  | real (bits : Nat) : TreeValue
  | str (s : String) : TreeValue
  | data (bytes : List Nat) : TreeValue
deriving DecidableEq, Repr

/-- A tree node reference (`TreeRef = Rc<TreeNode>` with the fields of
`BasicTree` from `src/tree/basictree.rs`: tag, value, optional child,
optional sibling).  `nil` stands for `None`; `node id tag value child
sibling` stands for an `Rc` pointing at an allocated `BasicTree`, where `id`
is the allocation identity (see the file header). -/
inductive OTree where
  | nil : OTree
  | node (id : Nat) (tag : String) (val : TreeValue) (child : OTree) (sibling : OTree) : OTree
deriving DecidableEq, Repr

/-- `TreeAddress` from `src/tree/address.rs`:
`Here | ChildAtIndex(usize, Box<TreeAddress>) | ChildWithTag(String, Box<TreeAddress>)`. -/
inductive TreeAddress where
  | here : TreeAddress
  | childAtIndex (i : Nat) (rest : TreeAddress) : TreeAddress
  | childWithTag (tag : String) (rest : TreeAddress) : TreeAddress
deriving DecidableEq, Repr

/-- `TreeExtent` from `src/tree/extent.rs`. -/
inductive TreeExtent where
  | thisNode : TreeExtent
  | children : TreeExtent
  | subTree : TreeExtent
deriving DecidableEq, Repr

/-- `TreeChangeType` from `src/tree/change.rs`: which of the addressed
node's references is replaced. -/
inductive TreeChangeType where
  | child : TreeChangeType
  | sibling : TreeChangeType
deriving DecidableEq, Repr

/-- `TreeChange` from `src/tree/change.rs`: the root address (relative to
the imaginary parent of the real root), the change type and the optional
replacement tree. -/
structure TreeChange where
  root : TreeAddress
  change_type : TreeChangeType
  replacement_tree : Option OTree
deriving DecidableEq, Repr

/-- Field accessor: allocation id (0 for `nil`; a `nil` is never
dereferenced by the modelled code). -/
def idOf : OTree → Nat
  | .nil => 0
  | .node i _ _ _ _ => i

/-- Field accessor: `get_tag` (`""` for `nil`). -/
def tagOf : OTree → String
  | .nil => ""
  | .node _ t _ _ _ => t

/-- Field accessor: `get_value` (`Nothing` for `nil`). -/
def valOf : OTree → TreeValue
  | .nil => TreeValue.nothing
  | .node _ _ v _ _ => v

/-- Field accessor: `get_child_ref` (`None` encoded as `nil`). -/
def childOf : OTree → OTree
  | .nil => .nil
  | .node _ _ _ c _ => c

/-- Field accessor: `get_sibling_ref` (`None` encoded as `nil`). -/
def sibOf : OTree → OTree
  | .nil => .nil
  | .node _ _ _ _ s => s

/-- The sibling chain starting at a node: the node itself followed by the
chain of its sibling.  (This is the sequence the Rust code walks with
repeated `get_sibling_ref`; `chainOf (childOf t)` is the list of children
of `t`.) -/
def chainOf : OTree → List OTree
  | .nil => []
  | .node i t v c s => .node i t v c s :: chainOf s

/-- Walking `k` sibling steps along a chain (`current =
current.and_then(|x| x.get_sibling_ref())` iterated). -/
def dropChain : Nat → OTree → OTree
  | 0, t => t
  | _ + 1, .nil => .nil
  | k + 1, .node _ _ _ _ s => dropChain k s

namespace TreeAddress

/-- `TreeAddress::is_parent_of` from `src/tree/address.rs`: whether `self`
is a parent of (a prefix of) `address`, `none` when the two addresses mix
index and tag steps so the question is undecidable from shape alone. -/
def is_parent_of : TreeAddress → TreeAddress → Option Bool
  | .here, _ => some true
  | .childAtIndex i selfChild, .childAtIndex j addrChild =>
      if i = j then is_parent_of selfChild addrChild else some false
  | .childAtIndex _ _, .here => some false
  | .childAtIndex _ _, _ => none
  | .childWithTag t selfChild, .childWithTag u addrChild =>
      if t = u then is_parent_of selfChild addrChild else some false
  | .childWithTag _ _, .here => some false
  | .childWithTag _ _, _ => none

/-- `TreeAddress::is_child_of`. -/
def is_child_of (self address : TreeAddress) : Option Bool :=
  address.is_parent_of self

/-- `TreeAddress::relative_to` from `src/tree/address.rs`: the suffix of
`self` after stripping the prefix `parent_address`; `Here` relative to
anything is `None`. -/
def relative_to : TreeAddress → TreeAddress → Option TreeAddress
  | .here, _ => none
  | .childAtIndex i selfChild, .here => some (.childAtIndex i selfChild)
  | .childAtIndex i selfChild, .childAtIndex j parentChild =>
      if i = j then relative_to selfChild parentChild else none
  | .childAtIndex _ _, _ => none
  | .childWithTag t selfChild, .here => some (.childWithTag t selfChild)
  | .childWithTag t selfChild, .childWithTag u parentChild =>
      if t = u then relative_to selfChild parentChild else none
  | .childWithTag _ _, _ => none

/-- `TreeAddress::parent` from `src/tree/address.rs`: removes the last
step (`Here.parent() == Here`). -/
def parent : TreeAddress → TreeAddress
  | .here => .here
  | .childAtIndex i child =>
      match child with
      | .here => .here
      | c => .childAtIndex i c.parent
  | .childWithTag t child =>
      match child with
      | .here => .here
      | c => .childWithTag t c.parent

/-- Modelled from the spec: `TreeAddress::last_part` is called by
`TreeChange::relative_to_sibling` in `src/tree/change.rs` but its
definition is absent from the sources in this snapshot; per the spec's
reading of an address as a path of steps (§4.1) it is the final step of
the address (`Here` for `Here`). -/
def last_part : TreeAddress → TreeAddress
  | .here => .here
  | .childAtIndex i .here => .childAtIndex i .here
  | .childAtIndex _ rest => last_part rest
  | .childWithTag t .here => .childWithTag t .here
  | .childWithTag _ rest => last_part rest

/-- `ToTreeAddress::to_tree_address_then` for `TreeAddress` from
`src/tree/address.rs`: appends `thenA` after `self` (used by
`(first, second).to_tree_address()`). -/
def addr_then : TreeAddress → TreeAddress → TreeAddress
  | .here, thenA => thenA
  | .childAtIndex i rest, thenA => .childAtIndex i (rest.addr_then thenA)
  | .childWithTag t rest, thenA => .childWithTag t (rest.addr_then thenA)

end TreeAddress

/-- `TreeNodeIndex for usize` from `src/tree/treenode_index.rs`: the
`pos`-th child of `parent_node`, walking the sibling chain. -/
def lookup_child_at_index (parent : OTree) (pos : Nat) : Option OTree :=
  match dropChain pos (childOf parent) with
  | .nil => none
  | t => some t

/-- `TreeNodeIndex for &str` from `src/tree/treenode_index.rs`: the first
child of `parent_node` whose tag matches (first match wins). -/
def lookup_child_with_tag (parent : OTree) (tag : String) : Option OTree :=
  go (childOf parent)
where
  go : OTree → Option OTree
    | .nil => none
    | .node i t v c s => if t = tag then some (.node i t v c s) else go s

/-- `TreeNodeIndex for TreeAddress` (`lookup_index`, used by
`get_child_ref_at`): walk the address through the tree. -/
def lookup_at : OTree → TreeAddress → Option OTree
  | t, .here => some t
  | t, .childAtIndex i rest =>
      (lookup_child_at_index t i).bind (fun c => lookup_at c rest)
  | t, .childWithTag tag rest =>
      (lookup_child_with_tag t tag).bind (fun c => lookup_at c rest)

/-- `TreeExtent::covers` from `src/tree/extent.rs`. -/
def TreeExtent.covers : TreeExtent → TreeAddress → Bool
  | .thisNode, .here => true
  | .thisNode, _ => false
  | .children, .childAtIndex _ rest => TreeExtent.covers .thisNode rest
  | .children, .childWithTag _ rest => TreeExtent.covers .thisNode rest
  | .children, _ => false
  | .subTree, _ => true

namespace TreeChange

/-- `TreeChange::address_relative_to_tree_root` from `src/tree/change.rs`:
strips the leading `ChildAtIndex(0, ..)` that addresses the real root under
the imaginary root (anything else collapses to `Here`). -/
def address_relative_to_tree_root (c : TreeChange) : TreeAddress :=
  match c.root with
  | .here => .here
  | .childAtIndex 0 address => address
  | _ => .here

/-- `TreeChange::address_applies` from `src/tree/change.rs`: whether a
change at `changing_address` can affect `testing_address` (either is an
ancestor of the other). -/
def address_applies (changing testing : TreeAddress) : Option Bool :=
  match changing.is_parent_of testing with
  | none => testing.is_parent_of changing
  | some false => testing.is_parent_of changing
  | r => r

/-- `TreeChange::applies_to_subtree` from `src/tree/change.rs`. -/
def applies_to_subtree (c : TreeChange) (address : TreeAddress) : Option Bool :=
  let relativeRoot := c.address_relative_to_tree_root
  match c.change_type with
  | .child => address_applies relativeRoot address
  | .sibling => address_applies relativeRoot.parent address

/-- `TreeChange::applies_to_child_of` from `src/tree/change.rs`. -/
def applies_to_child_of (c : TreeChange) (address : TreeAddress) : Option Bool :=
  let relativeRoot := c.address_relative_to_tree_root
  match c.change_type with
  | .child => relativeRoot.is_parent_of address
  | .sibling => relativeRoot.parent.is_parent_of address

/-- `TreeChange::applies_to_only` from `src/tree/change.rs`. -/
def applies_to_only (c : TreeChange) (address : TreeAddress) : Option Bool :=
  let relativeRoot := c.address_relative_to_tree_root
  match c.change_type with
  | .child => relativeRoot.is_parent_of address.parent
  | .sibling => relativeRoot.parent.is_parent_of address.parent

/-- `TreeChange::applies_to` from `src/tree/change.rs`: dispatch on the
extent. -/
def applies_to (c : TreeChange) (address : TreeAddress) (extent : TreeExtent) : Option Bool :=
  match extent with
  | .thisNode => c.applies_to_only address
  | .children => c.applies_to_child_of address
  | .subTree => c.applies_to_subtree address

/-- `TreeChange::relative_to_replacement_tree` from `src/tree/change.rs`:
make a fake root whose child is the replacement tree, look `tree_address`
up inside it; found → a `Here`/`Child` change replacing with the subtree
found, not found → a `Here`/`Child` change deleting the tree.  (The fake
root node itself is a scratch allocation that never escapes; its id is
irrelevant and written 0.) -/
def relative_to_replacement_tree (c : TreeChange) (treeAddress : TreeAddress) : Option TreeChange :=
  let fakeRoot : OTree := .node 0 "" TreeValue.nothing (c.replacement_tree.getD .nil) .nil
  match lookup_at fakeRoot treeAddress with
  | some newChangeTree => some ⟨.here, .child, some newChangeTree⟩
  | none => some ⟨.here, .child, none⟩

/-- `TreeChange::relative_to_parent` from `src/tree/change.rs`: the address
is an ancestor of the change's root, so shorten the root and re-prepend the
imaginary-root step `0`. -/
def relative_to_parent (c : TreeChange) (parentAddress : TreeAddress) : Option TreeChange :=
  let relativeRoot := c.address_relative_to_tree_root
  match relativeRoot.relative_to parentAddress with
  | some newRoot => some ⟨.childAtIndex 0 newRoot, c.change_type, c.replacement_tree⟩
  | none => none

/-- `TreeChange::relative_to_child` from `src/tree/change.rs`: the change
replaced a subtree containing the address, so navigate inside the
replacement tree. -/
def relative_to_child (c : TreeChange) (childAddress : TreeAddress) : Option TreeChange :=
  let relativeRoot := c.address_relative_to_tree_root
  match childAddress.relative_to relativeRoot with
  | some rootRelativeToTree => c.relative_to_replacement_tree rootRelativeToTree
  | none => none

/-- `TreeChange::relative_to_sibling` from `src/tree/change.rs`: the change
replaced the sibling of some node; adjust an indexed address by the offset
of the changed node and look inside the replacement tree. -/
def relative_to_sibling (c : TreeChange) (siblingAddress : TreeAddress) : Option TreeChange :=
  let relativeRoot := c.address_relative_to_tree_root
  let parentAddress := relativeRoot.parent
  match siblingAddress.relative_to parentAddress with
  | some (.childAtIndex index remainingAddress) =>
      match relativeRoot.last_part with
      | .childAtIndex offsetIndex _ =>
          if index > offsetIndex then
            c.relative_to_replacement_tree (.childAtIndex (index - offsetIndex - 1) remainingAddress)
          else
            none
      | _ => none
  | some (.childWithTag tag remainingAddress) =>
      c.relative_to_replacement_tree (.childWithTag tag remainingAddress)
  | some .here => none
  | none => none

/-- `TreeChange::relative_to` from `src/tree/change.rs`: re-express the
change relative to a subtree address. -/
def relative_to (c : TreeChange) (address : TreeAddress) : Option TreeChange :=
  let relativeRoot := c.address_relative_to_tree_root
  if (address.is_parent_of relativeRoot).getD false then
    c.relative_to_parent address
  else if c.change_type = .child ∧ (relativeRoot.is_parent_of address).getD false then
    c.relative_to_child address
  else if c.change_type = .sibling then
    c.relative_to_sibling address
  else
    none

/-- `TreeChange::perform_replacement` from `src/tree/change.rs`, fused with
the `BasicTree::from(original_tree)` copy that `perform_apply` makes just
before calling it (the fresh node takes the original's fields, then the
matched reference is replaced).  Note the `Sibling`/`None` arm: the source
calls `node.clear_child()` there (not `clear_sibling`), so it clears the
copy's child and keeps the original sibling. -/
def perform_replacement (original : OTree) (ct : TreeChangeType) (rt : Option OTree) (n : Nat) :
    OTree × Nat :=
  match ct, rt with
  | .child, some newChild => (.node n (tagOf original) (valOf original) newChild (sibOf original), n + 1)
  | .child, none => (.node n (tagOf original) (valOf original) .nil (sibOf original), n + 1)
  | .sibling, some newSibling => (.node n (tagOf original) (valOf original) (childOf original) newSibling, n + 1)
  | .sibling, none => (.node n (tagOf original) (valOf original) .nil (sibOf original), n + 1)

/-- The sibling-collecting loop of `TreeChange::perform_apply`
(`ChildAtIndex` arm) from `src/tree/change.rs`: walk `i` steps from the
first child, pushing each visited node (or a freshly allocated empty
placeholder `BasicTree::new("", ())` once the chain runs out) and
returning the node reached (`nil` when past the end) plus the supply. -/
def walk_siblings : OTree → Nat → Nat → List OTree × OTree × Nat
  | cur, 0, n => ([], cur, n)
  | .nil, i + 1, n =>
      let rest := walk_siblings .nil i (n + 1)
      (.node n "" TreeValue.nothing .nil .nil :: rest.1, rest.2.1, rest.2.2)
  | .node id t v c s, i + 1, n =>
      let rest := walk_siblings s i n
      (.node id t v c s :: rest.1, rest.2.1, rest.2.2)

/-- The tag-splitting loop of `TreeChange::perform_apply` (`ChildWithTag`
arm) from `src/tree/change.rs`: push siblings until the first node whose
tag matches, returning the pushed stack (in push order) and the node found
(`nil` when the chain is exhausted).  No allocation happens here. -/
def split_at_tag : OTree → String → List OTree × OTree
  | .nil, _ => ([], .nil)
  | .node id t v c s, tag =>
      if t = tag then ([], .node id t v c s)
      else
        let rest := split_at_tag s tag
        (.node id t v c s :: rest.1, rest.2)

/-- The stack-popping loop of `TreeChange::perform_apply`: pop the pushed
siblings (last pushed first), each time allocating
`BasicTree::from_with_sibling(sibling, current)` — a copy of the popped
node keeping its child and pointing its sibling at the accumulated chain.
Written by structural recursion on the stack in push order, which performs
the pops innermost-first exactly as the source loop does (and assigns the
same ids: the last-pushed sibling is copied first, with the smallest fresh
id). -/
def rebuild_chain : List OTree → OTree → Nat → OTree × Nat
  | [], cur, n => (cur, n)
  | s :: rest, cur, n =>
      let inner := rebuild_chain rest cur n
      (.node inner.2 (tagOf s) (valOf s) (childOf s) inner.1, inner.2 + 1)

/-- `TreeChange::perform_apply` from `src/tree/change.rs`: apply a change
at `address` to `original`, producing the new tree (sharing every
`Rc` the source clones) and threading the allocation supply. -/
def perform_apply : OTree → TreeAddress → TreeChangeType → Option OTree → Nat → OTree × Nat
  | original, .here, ct, rt, n => perform_replacement original ct rt n
  | original, .childAtIndex childIndex childAddress, ct, rt, n =>
      let w := walk_siblings (childOf original) childIndex n
      let childTree : OTree × Nat :=
        match w.2.1 with
        | .nil => (.node w.2.2 "" TreeValue.nothing .nil .nil, w.2.2 + 1)
        | t => (t, w.2.2)
      let newChild := perform_apply childTree.1 childAddress ct rt childTree.2
      let stitched := rebuild_chain w.1 newChild.1 newChild.2
      (.node stitched.2 (tagOf original) (valOf original) stitched.1 (sibOf original), stitched.2 + 1)
  | original, .childWithTag childTag childAddress, ct, rt, n =>
      let w := split_at_tag (childOf original) childTag
      let childTree : OTree × Nat :=
        match w.2 with
        | .nil => (.node n "" TreeValue.nothing .nil .nil, n + 1)
        | t => (t, n)
      let newChild := perform_apply childTree.1 childAddress ct rt childTree.2
      let stitched := rebuild_chain w.1 newChild.1 newChild.2
      (.node stitched.2 (tagOf original) (valOf original) stitched.1 (sibOf original), stitched.2 + 1)

/-- The `tree!("", original_tree)` call in `TreeChange::apply`: the
`tree!` macro (`src/tree/treenode_builder.rs`) copies the root expression
into a new node and sets its child list to shallow copies of the given
children with their siblings re-stitched (`set_children_refs` copies each
child via `BasicTree::from` and clears/sets its sibling), so the imaginary
root's child is a fresh shallow copy of `original_tree` with its sibling
cleared. -/
def mk_imaginary_root (t : OTree) (n : Nat) : OTree × Nat :=
  let rootCopy : OTree := .node n (tagOf t) (valOf t) (childOf t) .nil
  (.node (n + 1) "" TreeValue.nothing rootCopy .nil, n + 2)

/-- `TreeChange::apply` from `src/tree/change.rs`: actualise the imaginary
root, run `perform_apply`, and return the new imaginary root's child (or a
fresh empty node when the whole tree was deleted). -/
def apply (c : TreeChange) (originalTree : OTree) (n : Nat) : OTree × Nat :=
  let imag := mk_imaginary_root originalTree n
  let newImag := perform_apply imag.1 c.root c.change_type c.replacement_tree imag.2
  match childOf newImag.1 with
  | .nil => (.node newImag.2 "" TreeValue.nothing .nil .nil, newImag.2 + 1)
  | ch => (ch, newImag.2)

end TreeChange

/-! ## Subscription registry (`src/component/subscriptionmanager.rs`)

`SubscriptionManager<TData>` holds `CloneCell<Vec<Rc<Subscription>>>`.
`add_subscription` appends; `call_subscriptions` first calls
`self.subscriptions.get()` — `CloneCell::get` (`src/util/clonecell.rs`)
returns a clone of the vector, i.e. a snapshot — and then iterates the
snapshot, running each callback whose filter matches.  A callback is an
opaque `Box<FnMut(&TreeChange)>`; in this model a callback is named by a
tag of type `κ` and its observable effect on the manager — the
subscriptions it adds via `add_subscription` while it runs — is given by
the function argument `eff`. -/

/-- One entry of the subscription vector: filter data plus callback tag. -/
structure MSub (α : Type) (κ : Type) where
  data : α
  cb : κ
deriving DecidableEq, Repr

/-- `SubscriptionManager::call_subscriptions`: snapshot the current
vector, then for each snapshotted entry whose `call_filter(data)` holds,
invoke its callback (appending the subscriptions the callback adds to the
live vector, which starts as the same vector the snapshot was taken of).
Returns the final live vector and the invocation log in call order. -/
def call_subscriptions {α κ : Type} (eff : κ → List (MSub α κ)) (flt : α → Bool)
    (subs : List (MSub α κ)) : List (MSub α κ) × List κ :=
  (subs.foldl (fun acc s =>
    if flt s.data then (acc.1 ++ eff s.cb, acc.2 ++ [s.cb]) else acc) (subs, []))

/-! ## Bus consumer dispatch (`src/component/bus_publisher.rs`)

`TreeChangeBus::pump` dispatches each queued change through
`call_subscriptions` with the filter
`change.applies_to(&registration.address, &registration.extent).unwrap_or(false)`;
the registered callback is the closure built by `BusConsumer::subscribe`,
which computes `change.relative_to(&address)` and invokes the user
callback only when that is `Some`.  (`ImmediateConsumer::subscribe` in
`src/component/immediate_publisher.rs` builds the identical closure.) -/

/-- `ConsumerRegistration`: the filter data of a bus or immediate-publisher
subscription. -/
structure ConsumerRegistration where
  address : TreeAddress
  extent : TreeExtent
deriving DecidableEq, Repr

/-- The deliveries one change produces when dispatched over the
subscription list (entries carry the subscription's position, counted from
`start`, the original change, and the relative change handed to the user
callback).  A subscription whose `applies_to` filter is not `some true`,
or whose `relative_to` translation is `none`, produces no delivery. -/
def deliveries_from (start : Nat) (subs : List ConsumerRegistration) (c : TreeChange) :
    List (Nat × TreeChange × TreeChange) :=
  match subs with
  | [] => []
  | r :: rest =>
      let tail := deliveries_from (start + 1) rest c
      if (c.applies_to r.address r.extent).getD false then
        match c.relative_to r.address with
        | some rc => (start, c, rc) :: tail
        | none => tail
      else tail

/-- Dispatch of one change over the whole subscription list. -/
def deliveries (subs : List ConsumerRegistration) (c : TreeChange) :
    List (Nat × TreeChange × TreeChange) :=
  deliveries_from 0 subs c

/-- The state of a `TreeChangeBus`: the shared pending list (`waiting`, in
publish order — `BusPublisher::publish` pushes at the back) and the
subscription registrations.  (User callbacks are modelled by the `eff`
argument of `pump`/`flush`: the changes subscription `i` publishes back
onto this bus when it receives a relative change.) -/
structure BusState where
  waiting : List TreeChange
  subs : List ConsumerRegistration
deriving DecidableEq, Repr

/-- `TreeChangeBus::pump`: swap the pending list for a fresh empty one,
then dispatch every change of the swapped-out batch in arrival order;
changes published by callbacks during the dispatch accumulate in the fresh
list.  Returns the new bus state and the delivery log.  (No subscription
is added during a pump in this model, matching the fact that each
dispatched change re-snapshots the same subscription vector.) -/
def bus_pump (eff : Nat → TreeChange → List TreeChange) (st : BusState) :
    BusState × List (Nat × TreeChange × TreeChange) :=
  let folded := st.waiting.foldl (fun acc c =>
    let dels := deliveries st.subs c
    (acc.1 ++ dels.flatMap (fun d => eff d.1 d.2.2), acc.2 ++ dels)) ([], [])
  ({ waiting := folded.1, subs := st.subs }, folded.2)

/-- `TreeChangeBus::flush`: repeatedly check whether the pending list is
empty (`waiting.len() <= 0`), returning when it is, otherwise pump.  The
source loop has no termination guarantee, so the model takes a fuel bound:
`none` means the loop was still running when the fuel ran out. -/
def bus_flush (eff : Nat → TreeChange → List TreeChange) : Nat → BusState → Option BusState
  | 0, _ => none
  | fuel + 1, st =>
      if st.waiting = [] then some st else bus_flush eff fuel (bus_pump eff st).1

/-! ## Immediate publisher (`src/component/immediate_publisher.rs`)

`ImmediatePublisher::publish` calls `call_subscriptions` synchronously.
Each subscription's callback lives in a `RefCell`; `call_subscriptions`
takes `borrow_mut()` on it for the duration of the callback, so if a
callback's execution reaches the same subscription again (a reentrant
`publish` on the same publisher whose filter matches it), the nested
`borrow_mut` fails at runtime — the source comments: "Caution: this will
fail at runtime with a borrowing error if this function is re-entered".
The model tracks the set of borrowed subscription positions and reports
that failure as `borrowPanic`; recursion depth is bounded by fuel
(`outOfFuel` models only exhaustion of the model's bound, standing in for
the actual call stack). -/

/-- Outcome of a (possibly reentrant) immediate dispatch. -/
inductive POut where
  | ok (log : List (Nat × TreeChange)) : POut
  | borrowPanic : POut
  | outOfFuel : POut
deriving DecidableEq, Repr

/-- Sequence a list of nested publishes, concatenating their logs and
propagating the first failure. -/
def seq_run (f : TreeChange → POut) : List TreeChange → POut
  | [] => .ok []
  | c :: cs =>
      match f c with
      | .ok lg =>
          match seq_run f cs with
          | .ok lg2 => .ok (lg ++ lg2)
          | e => e
      | e => e

/-- The iteration of `call_subscriptions` inside
`ImmediatePublisher::publish`: walk the subscriptions from position `i`;
for a matching one, fail if it is currently borrowed, otherwise borrow it,
compute the relative change, and (when `Some`) run the user callback —
whose reentrant publishes `eff` are executed by `rec` under the extended
borrow set — then continue with the remaining subscriptions. -/
def go_subs (eff : Nat → TreeChange → List TreeChange)
    (rec : List Nat → TreeChange → POut) :
    Nat → List ConsumerRegistration → List Nat → TreeChange → POut
  | _, [], _, _ => .ok []
  | i, r :: rest, borrowed, c =>
      if (c.applies_to r.address r.extent).getD false then
        if i ∈ borrowed then .borrowPanic
        else
          match c.relative_to r.address with
          | some rc =>
              match seq_run (rec (i :: borrowed)) (eff i rc) with
              | .ok lg =>
                  match go_subs eff rec (i + 1) rest borrowed c with
                  | .ok lg2 => .ok ((i, rc) :: lg ++ lg2)
                  | e => e
              | e => e
          | none => go_subs eff rec (i + 1) rest borrowed c
      else go_subs eff rec (i + 1) rest borrowed c

/-- `ImmediatePublisher::publish` with reentrancy: dispatch `c` over
`subs` with the set `borrowed` of subscription positions whose callbacks
are currently executing (empty at a top-level `publish`). -/
def imm_publish (subs : List ConsumerRegistration)
    (eff : Nat → TreeChange → List TreeChange) :
    Nat → List Nat → TreeChange → POut
  | 0, _, _ => .outOfFuel
  | fuel + 1, borrowed, c =>
      go_subs eff (fun b c2 => imm_publish subs eff fuel b c2) 0 subs borrowed c

/-! ## Hub (`src/component/hub.rs`) -/

/-- What `Hub::publish_to(address)` pushes onto the hub's bus when the
returned publisher publishes `c`: the immediate publisher dispatches `c`
to the consumer subscribed at `Here` with `SubTree` extent (filter
`applies_to`, wrapper `relative_to(Here)`), and the hub's callback then
computes `change.relative_to(&target_address)`, publishing the result to
the bus only when it is `Some`.  `none` means nothing reaches the bus. -/
def publish_to_bus_change (target : TreeAddress) (c : TreeChange) : Option TreeChange :=
  if (c.applies_to .here .subTree).getD false then
    (c.relative_to .here).bind (fun rc => rc.relative_to target)
  else none

/-- Modelled from the spec: the translation `publish_to(address)` is
specified to perform — "takes changes expressed relative to `Here` and
re-addresses them to be relative to `address` before pushing onto the bus
(the exact inverse translation of `read_from`)", i.e. the change's
tree-relative root is prefixed with `address` (keeping the imaginary-root
step `0` in front).  This definition follows the spec's words and exists
only to be compared against the source's behaviour. -/
def publish_to_spec (target : TreeAddress) (c : TreeChange) : TreeChange :=
  ⟨.childAtIndex 0 (target.addr_then c.address_relative_to_tree_root),
    c.change_type, c.replacement_tree⟩

/-! ## Lemmas and claim theorems -/

section AddressAlgebra

open TreeAddress

/-- When `p` is a strict ancestor of `a`, `relative_to` succeeds and its
result, appended after `p`, reconstructs `a`. -/
theorem relative_to_of_strict_parent (p a : TreeAddress)
    (h : p.is_parent_of a = some true) (hne : a ≠ p) :
    ∃ s, a.relative_to p = some s ∧ p.addr_then s = a := by
  induction p generalizing a with
  | here =>
      cases a with
      | here => exact absurd rfl hne
      | childAtIndex i r => exact ⟨.childAtIndex i r, rfl, rfl⟩
      | childWithTag t r => exact ⟨.childWithTag t r, rfl, rfl⟩
  | childAtIndex i p' ih =>
      cases a with
      | here => simp [is_parent_of] at h
      | childAtIndex j a' =>
          by_cases hij : i = j
          · subst hij
            rw [is_parent_of, if_pos rfl] at h
            have hne' : a' ≠ p' := fun hh => hne (by rw [hh])
            obtain ⟨s, hs, happ⟩ := ih a' h hne'
            exact ⟨s, by rw [relative_to, if_pos rfl]; exact hs,
              by rw [addr_then, happ]⟩
          · rw [is_parent_of, if_neg hij] at h
            simp at h
      | childWithTag t a' => simp [is_parent_of] at h
  | childWithTag t p' ih =>
      cases a with
      | here => simp [is_parent_of] at h
      | childAtIndex j a' => simp [is_parent_of] at h
      | childWithTag u a' =>
          by_cases htu : t = u
          · subst htu
            rw [is_parent_of, if_pos rfl] at h
            have hne' : a' ≠ p' := fun hh => hne (by rw [hh])
            obtain ⟨s, hs, happ⟩ := ih a' h hne'
            exact ⟨s, by rw [relative_to, if_pos rfl]; exact hs,
              by rw [addr_then, happ]⟩
          · rw [is_parent_of, if_neg htu] at h
            simp at h

/-- C4 counterexample: at `p = a = Here` (the claim explicitly includes
`p == a`), `p.is_parent_of(a)` is `Some(true)` yet `a.relative_to(p)` is
`None` — no suffix is returned, so the claimed round trip fails.  (The
same happens for every `a = p`: `relative_to` never accepts its full
address as a prefix.) -/
theorem spec_c4_counterexample :
    TreeAddress.is_parent_of .here .here = some true
    ∧ TreeAddress.relative_to .here .here = none
    ∧ TreeAddress.is_parent_of (.childAtIndex 0 .here) (.childAtIndex 0 .here) = some true
    ∧ TreeAddress.relative_to (.childAtIndex 0 .here) (.childAtIndex 0 .here) = none := by
  decide

/-- C4 (amended): for every pair of addresses `a` and `p` such that `p` is
a *strict* ancestor of `a` (`p.is_parent_of(a) == Some(true)` and
`a ≠ p`), `a.relative_to(p)` returns a suffix `s` and appending `s` after
`p` reconstructs `a`.  (For `a = p`, `relative_to` returns `None`.) -/
theorem spec_c4 (p a : TreeAddress)
    (h : p.is_parent_of a = some true) (hne : a ≠ p) :
    (a.relative_to p).isSome = true
    ∧ p.addr_then ((a.relative_to p).getD .here) = a := by
  obtain ⟨s, hs, happ⟩ := relative_to_of_strict_parent p a h hne
  rw [hs]
  exact ⟨rfl, happ⟩

/-- C4 witness: `p = .1`, `a = .1.2`. -/
theorem spec_c4_witness :
    ((TreeAddress.childAtIndex 1 (.childAtIndex 2 .here)).relative_to
        (.childAtIndex 1 .here)).isSome = true
    ∧ (TreeAddress.childAtIndex 1 .here).addr_then
        (((TreeAddress.childAtIndex 1 (.childAtIndex 2 .here)).relative_to
          (.childAtIndex 1 .here)).getD .here)
        = .childAtIndex 1 (.childAtIndex 2 .here) :=
  spec_c4 (.childAtIndex 1 .here) (.childAtIndex 1 (.childAtIndex 2 .here))
    (by decide) (by decide)

end AddressAlgebra

section Registry

/-- The dispatch loop of `call_subscriptions`, unrolled: the final vector
is the snapshot followed by everything the invoked callbacks added, and
the log is exactly the snapshotted matching entries in order. -/
theorem call_subscriptions_foldl {α κ : Type} (eff : κ → List (MSub α κ)) (flt : α → Bool) :
    ∀ (l : List (MSub α κ)) (acc : List (MSub α κ) × List κ),
      l.foldl (fun acc s =>
          if flt s.data then (acc.1 ++ eff s.cb, acc.2 ++ [s.cb]) else acc) acc
        = (acc.1 ++ (l.filter (fun s => flt s.data)).flatMap (fun s => eff s.cb),
           acc.2 ++ (l.filter (fun s => flt s.data)).map (fun s => s.cb)) := by
  intro l
  induction l with
  | nil => intro acc; simp
  | cons s rest ih =>
      intro acc
      by_cases hs : flt s.data
      · simp only [List.foldl_cons, if_pos hs, ih, List.filter_cons, hs]
        simp
      · simp only [List.foldl_cons, if_neg hs, ih, List.filter_cons, hs]
        simp

/-- C3: `call_subscriptions` snapshots the sequence before iterating: the
invocation log is exactly the snapshotted entries whose filter accepts
their data, in insertion order (so an entry added during the dispatch is
not visited by it), and an entry present after the dispatch whose filter
accepts it — in particular one added during the dispatch — is visited by
the next dispatch. -/
theorem spec_c3 {α κ : Type} (eff : κ → List (MSub α κ)) (flt : α → Bool)
    (subs : List (MSub α κ)) (s2 : MSub α κ)
    (hmem : s2 ∈ (call_subscriptions eff flt subs).1)
    (hflt : flt s2.data = true) :
    (call_subscriptions eff flt subs).2
      = (subs.filter (fun s => flt s.data)).map (fun s => s.cb)
    ∧ s2.cb ∈ (call_subscriptions eff flt ((call_subscriptions eff flt subs).1)).2 := by
  have hrun : ∀ (l : List (MSub α κ)),
      call_subscriptions eff flt l
        = (l ++ (l.filter (fun s => flt s.data)).flatMap (fun s => eff s.cb),
           (l.filter (fun s => flt s.data)).map (fun s => s.cb)) := by
    intro l
    have := call_subscriptions_foldl eff flt l (l, [])
    simpa [call_subscriptions] using this
  constructor
  · rw [hrun]
  · rw [hrun ((call_subscriptions eff flt subs).1)]
    exact List.mem_map.mpr ⟨s2, List.mem_filter.mpr ⟨hmem, hflt⟩, rfl⟩

/-- C3 witness: one subscription (data `5`, callback `0`) whose callback
adds a second subscription (data `7`, callback `1`); with an
all-accepting filter the first dispatch calls only callback `0`, and the
second dispatch reaches the added entry. -/
theorem spec_c3_witness :
    (call_subscriptions (fun k => if k = 0 then [⟨7, 1⟩] else []) (fun _ => true)
        ([⟨5, 0⟩] : List (MSub Nat Nat))).2
      = (([⟨5, 0⟩] : List (MSub Nat Nat)).filter (fun s => (fun _ => true) s.data)).map
          (fun s => s.cb)
    ∧ (⟨7, 1⟩ : MSub Nat Nat).cb ∈
        (call_subscriptions (fun k => if k = 0 then [⟨7, 1⟩] else []) (fun _ => true)
          ((call_subscriptions (fun k => if k = 0 then [⟨7, 1⟩] else []) (fun _ => true)
            ([⟨5, 0⟩] : List (MSub Nat Nat))).1)).2 :=
  spec_c3 (fun k => if k = 0 then [⟨7, 1⟩] else []) (fun _ => true)
    [⟨5, 0⟩] ⟨7, 1⟩ (by decide) (by decide)

end Registry

section Bus

/-- The dispatch loop of `TreeChangeBus::pump`, unrolled over the
swapped-out batch. -/
theorem bus_pump_foldl (eff : Nat → TreeChange → List TreeChange)
    (subs : List ConsumerRegistration) :
    ∀ (cs : List TreeChange) (acc : List TreeChange × List (Nat × TreeChange × TreeChange)),
      cs.foldl (fun acc c =>
          let dels := deliveries subs c
          (acc.1 ++ dels.flatMap (fun d => eff d.1 d.2.2), acc.2 ++ dels)) acc
        = (acc.1 ++ cs.flatMap (fun c => (deliveries subs c).flatMap (fun d => eff d.1 d.2.2)),
           acc.2 ++ cs.flatMap (fun c => deliveries subs c)) := by
  intro cs
  induction cs with
  | nil => intro acc; simp
  | cons c rest ih =>
      intro acc
      simp only [List.foldl_cons, ih]
      simp

/-- C2: a single `pump` dispatches exactly the changes that were pending
when it started, in arrival order (the log is the concatenation of each
pending change's deliveries, in batch order — so with a batch
`[c1, c2]`, every subscriber matching both receives `c1`'s delivery
before `c2`'s); every change published by a callback during the pump
lands in the fresh swapped-in pending list (and, being absent from the
log equation, is not dispatched by the in-progress pump). -/
theorem spec_c2 (eff : Nat → TreeChange → List TreeChange) (st : BusState)
    (c1 c2 : TreeChange) :
    (bus_pump eff st).2 = st.waiting.flatMap (fun c => deliveries st.subs c)
    ∧ (bus_pump eff st).1.waiting
        = st.waiting.flatMap (fun c => (deliveries st.subs c).flatMap (fun d => eff d.1 d.2.2))
    ∧ (bus_pump eff st).1.subs = st.subs
    ∧ (bus_pump eff { waiting := [c1, c2], subs := st.subs }).2
        = deliveries st.subs c1 ++ deliveries st.subs c2 := by
  refine ⟨?_, ?_, ?_, ?_⟩
  · simp [bus_pump, bus_pump_foldl eff st.subs st.waiting ([], [])]
  · simp [bus_pump, bus_pump_foldl eff st.subs st.waiting ([], [])]
  · simp [bus_pump, bus_pump_foldl eff st.subs st.waiting ([], [])]
  · simp [bus_pump, bus_pump_foldl eff st.subs [c1, c2] ([], [])]

/-- C10: whenever `flush` returns (within any fuel bound), the pending
list of the returned bus state is empty: the loop only returns after
observing `waiting.len() <= 0`. -/
theorem spec_c10 (eff : Nat → TreeChange → List TreeChange) :
    ∀ (fuel : Nat) (st st' : BusState),
      bus_flush eff fuel st = some st' → st'.waiting = [] := by
  intro fuel
  induction fuel with
  | zero => intro st st' h; simp [bus_flush] at h
  | succ f ih =>
      intro st st' h
      rw [bus_flush] at h
      by_cases hw : st.waiting = []
      · rw [if_pos hw] at h
        cases h
        exact hw
      · rw [if_neg hw] at h
        exact ih _ _ h

/-- C10 witness: a bus with one pending change and one subscriber that
publishes nothing back; `flush` with fuel 2 returns, and the returned
state's pending list is empty. -/
theorem spec_c10_witness :
    (BusState.mk [] [⟨.here, .subTree⟩]).waiting = [] :=
  spec_c10 (fun _ _ => []) 2
    ⟨[⟨.childAtIndex 0 (.childAtIndex 1 .here), .child,
        some (.node 8 "y" .nothing .nil .nil)⟩], [⟨.here, .subTree⟩]⟩
    ⟨[], [⟨.here, .subTree⟩]⟩ (by decide)

end Bus

section NoneSuppression

/-- Characterization of the entries of `deliveries_from`: a delivery
exists exactly for subscriptions whose `applies_to` filter evaluated with
`unwrap_or(false)` is true and whose `relative_to` translation is
`some`. -/
theorem mem_deliveries_from (c : TreeChange) :
    ∀ (subs : List ConsumerRegistration) (start : Nat)
      (d : Nat × TreeChange × TreeChange),
      d ∈ deliveries_from start subs c ↔
        ∃ pos r, subs.get? pos = some r ∧ d.1 = start + pos
          ∧ (c.applies_to r.address r.extent).getD false = true
          ∧ c.relative_to r.address = some d.2.2 ∧ d.2.1 = c := by
  intro subs
  induction subs with
  | nil =>
      intro start d
      simp [deliveries_from]
  | cons r rest ih =>
      intro start d
      rw [deliveries_from]
      constructor
      · intro hd
        by_cases hflt : (c.applies_to r.address r.extent).getD false = true
        · rw [if_pos hflt] at hd
          cases hrel : c.relative_to r.address with
          | some rc =>
              rw [hrel] at hd
              rcases List.mem_cons.mp hd with hhead | htail
              · subst hhead
                exact ⟨0, r, rfl, by omega, hflt, hrel, rfl⟩
              · obtain ⟨pos, r', hget, hidx, h1, h2, h3⟩ := (ih (start + 1) d).mp htail
                exact ⟨pos + 1, r', by simpa using hget, by omega, h1, h2, h3⟩
          | none =>
              rw [hrel] at hd
              obtain ⟨pos, r', hget, hidx, h1, h2, h3⟩ := (ih (start + 1) d).mp hd
              exact ⟨pos + 1, r', by simpa using hget, by omega, h1, h2, h3⟩
        · rw [if_neg hflt] at hd
          obtain ⟨pos, r', hget, hidx, h1, h2, h3⟩ := (ih (start + 1) d).mp hd
          exact ⟨pos + 1, r', by simpa using hget, by omega, h1, h2, h3⟩
      · rintro ⟨pos, r', hget, hidx, h1, h2, h3⟩
        obtain ⟨d1, d2, d3⟩ := d
        simp only at hidx h2 h3 ⊢
        cases pos with
        | zero =>
            simp only [List.get?] at hget
            cases hget
            subst h3
            rw [if_pos h1, h2]
            have hd1 : d1 = start := by omega
            subst hd1
            exact List.mem_cons_self _ _
        | succ pos' =>
            have htail : (d1, d2, d3) ∈ deliveries_from (start + 1) rest c :=
              (ih (start + 1) (d1, d2, d3)).mpr
                ⟨pos', r', by simpa using hget, by simp; omega, h1, by simpa using h2,
                  by simpa using h3⟩
            by_cases hflt : (c.applies_to r.address r.extent).getD false = true
            · rw [if_pos hflt]
              cases hrel : c.relative_to r.address with
              | some rc => exact List.mem_cons_of_mem _ htail
              | none => exact htail
            · rw [if_neg hflt]
              exact htail

/-- C8: when either the `applies_to` overlap test or the `relative_to`
translation of a change against a subscription returns `None`, that
subscription receives no delivery for that change — neither from a
one-change dispatch nor anywhere in a `pump` of a batch containing the
change: dispatch treats `None` as "does not apply" (the filter is
`unwrap_or(false)`, the wrapper forwards only `Some` translations). -/
theorem spec_c8 (eff : Nat → TreeChange → List TreeChange)
    (w : List TreeChange) (subs : List ConsumerRegistration)
    (c : TreeChange) (p : Nat) (r : ConsumerRegistration)
    (hp : subs.get? p = some r)
    (hnone : c.applies_to r.address r.extent = none ∨ c.relative_to r.address = none) :
    (deliveries subs c).filter (fun d => d.1 == p) = []
    ∧ ((bus_pump eff ⟨w, subs⟩).2.filter (fun d => d.1 == p && d.2.1 == c)) = [] := by
  have hkey : ∀ (d : Nat × TreeChange × TreeChange),
      d ∈ deliveries subs c → d.1 = p → False := by
    intro d hd hdp
    obtain ⟨pos, r', hget, hidx, h1, h2, _⟩ := (mem_deliveries_from c subs 0 d).mp hd
    have hpos : pos = p := by omega
    subst hpos
    rw [hp] at hget
    cases hget
    rcases hnone with hn | hn
    · rw [hn] at h1
      simp at h1
    · rw [hn] at h2
      cases h2
  constructor
  · rw [List.filter_eq_nil_iff]
    intro d hd
    simp only [Bool.not_eq_true, beq_eq_false_iff_ne, ne_eq]
    exact fun hdp => hkey d hd hdp
  · rw [List.filter_eq_nil_iff]
    intro d hd
    have hlog : (bus_pump eff ⟨w, subs⟩).2 = w.flatMap (fun c' => deliveries subs c') := by
      simp [bus_pump, bus_pump_foldl eff subs w ([], [])]
    rw [hlog] at hd
    obtain ⟨c', _, hdel⟩ := List.mem_flatMap.mp hd
    intro hband
    simp only [Bool.and_eq_true, beq_iff_eq] at hband
    obtain ⟨hdp, hdc⟩ := hband
    obtain ⟨pos, r', hget, hidx, h1, h2, h3⟩ := (mem_deliveries_from c' subs 0 d).mp hdel
    rw [hdc] at h3
    subst h3
    exact hkey d hdel hdp

/-- C8 witness: subscription 0 is tag-addressed while the change is
index-addressed, so `applies_to` is undecidable (`None`); the change is
not delivered to it, though it is delivered to the index-addressed
subscription 1. -/
theorem spec_c8_witness :
    (deliveries [⟨.childWithTag "t" .here, .subTree⟩, ⟨.here, .subTree⟩]
        ⟨.childAtIndex 0 (.childAtIndex 1 .here), .child,
          some (.node 8 "y" .nothing .nil .nil)⟩).filter (fun d => d.1 == 0) = []
    ∧ ((bus_pump (fun _ _ => [])
        ⟨[⟨.childAtIndex 0 (.childAtIndex 1 .here), .child,
            some (.node 8 "y" .nothing .nil .nil)⟩],
          [⟨.childWithTag "t" .here, .subTree⟩, ⟨.here, .subTree⟩]⟩).2.filter
        (fun d => d.1 == 0 && d.2.1 == (⟨.childAtIndex 0 (.childAtIndex 1 .here), .child,
          some (.node 8 "y" .nothing .nil .nil)⟩ : TreeChange))) = [] :=
  spec_c8 (fun _ _ => [])
    [⟨.childAtIndex 0 (.childAtIndex 1 .here), .child, some (.node 8 "y" .nothing .nil .nil)⟩]
    [⟨.childWithTag "t" .here, .subTree⟩, ⟨.here, .subTree⟩]
    ⟨.childAtIndex 0 (.childAtIndex 1 .here), .child, some (.node 8 "y" .nothing .nil .nil)⟩
    0 ⟨.childWithTag "t" .here, .subTree⟩ (by decide) (Or.inl (by decide))

end NoneSuppression

section ApplySharing

/-- The empty placeholder nodes (`BasicTree::new("", ())`) allocated for
`count` missing sibling positions, with ids from `n`. -/
def placeholders : Nat → Nat → List OTree
  | 0, _ => []
  | m + 1, n => .node n "" TreeValue.nothing .nil .nil :: placeholders m (n + 1)

theorem chainOf_eq_nil (x : OTree) : chainOf x = [] ↔ x = .nil := by
  cases x <;> simp [chainOf]

theorem chainOf_dropChain : ∀ (i : Nat) (x : OTree),
    chainOf (dropChain i x) = (chainOf x).drop i := by
  intro i
  induction i with
  | zero => intro x; simp [dropChain]
  | succ j ih =>
      intro x
      cases x with
      | nil => simp [dropChain, chainOf]
      | node id t v c s => simp [dropChain, chainOf, ih]

theorem dropChain_sib : ∀ (i : Nat) (x : OTree),
    dropChain (i + 1) x = sibOf (dropChain i x) := by
  intro i
  induction i with
  | zero => intro x; cases x <;> simp [dropChain, sibOf]
  | succ j ih =>
      intro x
      cases x with
      | nil => simp [dropChain, sibOf]
      | node id t v c s => simpa [dropChain] using ih s

theorem walk_le : ∀ (i : Nat) (ch : OTree) (n : Nat), i ≤ (chainOf ch).length →
    TreeChange.walk_siblings ch i n = ((chainOf ch).take i, dropChain i ch, n) := by
  intro i
  induction i with
  | zero => intro ch n _; simp [TreeChange.walk_siblings, dropChain]
  | succ j ih =>
      intro ch n h
      cases ch with
      | nil => simp [chainOf] at h
      | node id t v c s =>
          have hs : j ≤ (chainOf s).length := by
            simpa [chainOf] using h
          simp [TreeChange.walk_siblings, ih s n hs, chainOf, dropChain]

theorem walk_ge : ∀ (i : Nat) (ch : OTree) (n : Nat), (chainOf ch).length ≤ i →
    TreeChange.walk_siblings ch i n
      = (chainOf ch ++ placeholders (i - (chainOf ch).length) n, .nil,
         n + (i - (chainOf ch).length)) := by
  intro i
  induction i with
  | zero =>
      intro ch n h
      have hch : ch = .nil := (chainOf_eq_nil ch).mp (List.length_eq_zero.mp (Nat.le_zero.mp h))
      subst hch
      simp [TreeChange.walk_siblings, placeholders, chainOf]
  | succ j ih =>
      intro ch n h
      cases ch with
      | nil =>
          have hj : (chainOf OTree.nil).length ≤ j := by simp [chainOf]
          simp [TreeChange.walk_siblings, ih .nil (n + 1) hj, chainOf, placeholders]
          omega
      | node id t v c s =>
          have hj : (chainOf s).length ≤ j := by simpa [chainOf] using h
          simp [TreeChange.walk_siblings, ih s n hj, chainOf]

theorem chain_rebuild_map {β : Type} (f : OTree → β)
    (hf : ∀ (m : Nat) (s inner : OTree),
      f (.node m (tagOf s) (valOf s) (childOf s) inner) = f s) :
    ∀ (l : List OTree) (cur : OTree) (n : Nat),
      (chainOf ((TreeChange.rebuild_chain l cur n).1)).map f
        = l.map f ++ (chainOf cur).map f := by
  intro l
  induction l with
  | nil => intro cur n; rfl
  | cons s rest ih =>
      intro cur n
      simp only [TreeChange.rebuild_chain, chainOf, List.map_cons, hf, ih, List.cons_append]

theorem chain_rebuild_drop : ∀ (l : List OTree) (cur : OTree) (n : Nat),
    (chainOf ((TreeChange.rebuild_chain l cur n).1)).drop l.length = chainOf cur := by
  intro l
  induction l with
  | nil => intro cur n; rfl
  | cons s rest ih =>
      intro cur n
      simpa only [TreeChange.rebuild_chain, chainOf, List.length_cons, List.drop_succ_cons]
        using ih cur n

theorem perform_apply_sib (x : OTree) (a : TreeAddress) (rt : Option OTree) (n : Nat) :
    sibOf ((TreeChange.perform_apply x a .child rt n).1) = sibOf x := by
  cases a with
  | here =>
      cases rt <;> simp [TreeChange.perform_apply, TreeChange.perform_replacement, sibOf]
  | childAtIndex i rest => simp [TreeChange.perform_apply, sibOf]
  | childWithTag t rest => simp [TreeChange.perform_apply, sibOf]

theorem perform_apply_ne_nil (x : OTree) (a : TreeAddress) (ct : TreeChangeType)
    (rt : Option OTree) (n : Nat) :
    (TreeChange.perform_apply x a ct rt n).1 ≠ .nil := by
  cases a with
  | here =>
      cases ct <;> cases rt <;>
        simp [TreeChange.perform_apply, TreeChange.perform_replacement]
  | childAtIndex i rest => simp [TreeChange.perform_apply]
  | childWithTag t rest => simp [TreeChange.perform_apply]

theorem chainOf_of_ne_nil (x : OTree) (h : x ≠ .nil) :
    chainOf x = x :: chainOf (sibOf x) := by
  cases x with
  | nil => exact absurd rfl h
  | node id t v c s => rfl

/-- Shape of `perform_apply` at an in-range indexed step: the first `i`
children are pushed and rebuilt around the recursive application to the
node at position `i` (no placeholder is allocated). -/
theorem perform_apply_childAt_lt (t : OTree) (i : Nat) (rest : TreeAddress)
    (ct : TreeChangeType) (rt : Option OTree) (n : Nat)
    (hik : i < (chainOf (childOf t)).length) :
    TreeChange.perform_apply t (.childAtIndex i rest) ct rt n
      = (let nc := TreeChange.perform_apply (dropChain i (childOf t)) rest ct rt n
         let st := TreeChange.rebuild_chain ((chainOf (childOf t)).take i) nc.1 nc.2
         (.node st.2 (tagOf t) (valOf t) st.1 (sibOf t), st.2 + 1)) := by
  have hwalk := walk_le i (childOf t) n (le_of_lt hik)
  have hnn : dropChain i (childOf t) ≠ .nil := by
    intro hnil
    have := chainOf_dropChain i (childOf t)
    rw [hnil] at this
    simp only [chainOf] at this
    have : (chainOf (childOf t)).length ≤ i := by
      have hlen := congrArg List.length this
      simpa using Nat.le_of_sub_eq_zero (by simpa using hlen.symm)
    omega
  rw [TreeChange.perform_apply, hwalk]
  simp only

/-- Shape of `perform_apply` at an out-of-range indexed step: the whole
child chain plus freshly allocated empty placeholders are pushed, the edit
recurses on one more fresh placeholder, and everything is rebuilt. -/
theorem perform_apply_childAt_ge (t : OTree) (i : Nat) (rest : TreeAddress)
    (ct : TreeChangeType) (rt : Option OTree) (n : Nat)
    (hik : (chainOf (childOf t)).length ≤ i) :
    TreeChange.perform_apply t (.childAtIndex i rest) ct rt n
      = (let m := i - (chainOf (childOf t)).length
         let nc := TreeChange.perform_apply (.node (n + m) "" .nothing .nil .nil) rest ct rt
           (n + m + 1)
         let st := TreeChange.rebuild_chain
           (chainOf (childOf t) ++ placeholders m n) nc.1 nc.2
         (.node st.2 (tagOf t) (valOf t) st.1 (sibOf t), st.2 + 1)) := by
  have hwalk := walk_ge i (childOf t) n hik
  rw [TreeChange.perform_apply, hwalk]

/-- C1 (amended): applying a `Child`-type change at in-range child
position `i` keeps the root's tag/value and its sibling reference, turns
each of the `i` preceding siblings into a fresh shallow copy that
preserves its tag and value and shares (is reference-identical to) its
child subtree, applies the edit recursively at position `i` on the
original node there, and re-attaches the chain after position `i` as the
same shared references.  (The preceding sibling nodes themselves are
fresh copies — their sibling pointer changes — which is what the original
claim's "shared, not copies" wording gets wrong; see the
counterexample.) -/
theorem spec_c1 (t : OTree) (i : Nat) (rest : TreeAddress) (rt : Option OTree) (n : Nat)
    (hik : i < (chainOf (childOf t)).length) :
    tagOf ((TreeChange.perform_apply t (.childAtIndex i rest) .child rt n).1) = tagOf t
    ∧ valOf ((TreeChange.perform_apply t (.childAtIndex i rest) .child rt n).1) = valOf t
    ∧ sibOf ((TreeChange.perform_apply t (.childAtIndex i rest) .child rt n).1) = sibOf t
    ∧ ((chainOf (childOf ((TreeChange.perform_apply t (.childAtIndex i rest) .child rt n).1))).map
        tagOf).take i = ((chainOf (childOf t)).map tagOf).take i
    ∧ ((chainOf (childOf ((TreeChange.perform_apply t (.childAtIndex i rest) .child rt n).1))).map
        valOf).take i = ((chainOf (childOf t)).map valOf).take i
    ∧ ((chainOf (childOf ((TreeChange.perform_apply t (.childAtIndex i rest) .child rt n).1))).map
        childOf).take i = ((chainOf (childOf t)).map childOf).take i
    ∧ (chainOf (childOf ((TreeChange.perform_apply t (.childAtIndex i rest) .child rt n).1))).drop i
        = chainOf ((TreeChange.perform_apply (dropChain i (childOf t)) rest .child rt n).1)
    ∧ (chainOf (childOf ((TreeChange.perform_apply t (.childAtIndex i rest) .child rt n).1))).drop
        (i + 1) = (chainOf (childOf t)).drop (i + 1) := by
  have hL : ((chainOf (childOf t)).take i).length = i := by
    rw [List.length_take]
    omega
  have hshape := perform_apply_childAt_lt t i rest .child rt n hik
  set L := (chainOf (childOf t)).take i with hLdef
  set nc := TreeChange.perform_apply (dropChain i (childOf t)) rest .child rt n with hnc
  have hres : (TreeChange.perform_apply t (.childAtIndex i rest) .child rt n).1
      = OTree.node (TreeChange.rebuild_chain L nc.1 nc.2).2 (tagOf t) (valOf t)
          (TreeChange.rebuild_chain L nc.1 nc.2).1 (sibOf t) := by
    rw [hshape]
  have hmap : ∀ {β : Type} (f : OTree → β),
      (∀ (m : Nat) (s inner : OTree),
        f (.node m (tagOf s) (valOf s) (childOf s) inner) = f s) →
      ((chainOf ((TreeChange.rebuild_chain L nc.1 nc.2).1)).map f).take i
        = ((chainOf (childOf t)).map f).take i := by
    intro β f hf
    rw [chain_rebuild_map f hf L nc.1 nc.2, List.take_append_eq_append_take]
    have hlm : (L.map f).length = i := by rw [List.length_map]; exact hL
    rw [hlm, Nat.sub_self, List.take_zero, List.append_nil,
      List.take_of_length_le (Nat.le_of_eq hlm), hLdef, List.map_take]
  have hdropi : (chainOf ((TreeChange.rebuild_chain L nc.1 nc.2).1)).drop i = chainOf nc.1 := by
    have := chain_rebuild_drop L nc.1 nc.2
    rwa [hL] at this
  have h1 : tagOf ((TreeChange.perform_apply t (.childAtIndex i rest) .child rt n).1)
      = tagOf t := by rw [hres]; rfl
  have h2 : valOf ((TreeChange.perform_apply t (.childAtIndex i rest) .child rt n).1)
      = valOf t := by rw [hres]; rfl
  have h3 : sibOf ((TreeChange.perform_apply t (.childAtIndex i rest) .child rt n).1)
      = sibOf t := by rw [hres]; rfl
  have hcres : childOf ((TreeChange.perform_apply t (.childAtIndex i rest) .child rt n).1)
      = (TreeChange.rebuild_chain L nc.1 nc.2).1 := by rw [hres]; rfl
  have h7 : (chainOf (childOf ((TreeChange.perform_apply t
      (.childAtIndex i rest) .child rt n).1))).drop i = chainOf nc.1 := by
    rw [hcres]
    exact hdropi
  refine ⟨h1, h2, h3, ?_, ?_, ?_, h7, ?_⟩
  · rw [hcres]
    exact hmap tagOf (fun m s inner => rfl)
  · rw [hcres]
    exact hmap valOf (fun m s inner => rfl)
  · rw [hcres]
    exact hmap childOf (fun m s inner => rfl)
  · have hstep : (chainOf (childOf ((TreeChange.perform_apply t
        (.childAtIndex i rest) .child rt n).1))).drop (i + 1) = (chainOf nc.1).drop 1 := by
      rw [← List.drop_drop, h7]
    rw [hstep, chainOf_of_ne_nil nc.1 (perform_apply_ne_nil _ _ _ _ _), List.drop_succ_cons,
      List.drop_zero, perform_apply_sib, ← dropChain_sib, chainOf_dropChain]

/-- C1 counterexample: tree `root(a(d), b)` (node ids 1,2,5,3; the initial
supply 10 exceeds every id, so ids below 10 in the result certify reused
references and ids from 10 up certify fresh allocations).  The change
edits position 1, so the subtree at position 0 (node `a`) is not on the
change's path; the claim says it stays reference-identical.  In the
result, the child at position 0 still has tag `"a"` and still shares
`a`'s child `d` (same term, id 5), but its own id is no longer 2: node
`a` was re-allocated (`from_with_sibling` copies it to repoint its
sibling), so the preceding sibling is a copy, not the same shared
reference. -/
theorem spec_c1_counterexample :
    tagOf ((chainOf (childOf ((TreeChange.apply
        ⟨.childAtIndex 0 (.childAtIndex 1 .here), .child,
          some (.node 6 "r" .nothing .nil .nil)⟩
        (.node 1 "root" .nothing
          (.node 2 "a" .nothing (.node 5 "d" .nothing .nil .nil)
            (.node 3 "b" .nothing .nil .nil)) .nil) 10).1))).getD 0 .nil) = "a"
    ∧ childOf ((chainOf (childOf ((TreeChange.apply
        ⟨.childAtIndex 0 (.childAtIndex 1 .here), .child,
          some (.node 6 "r" .nothing .nil .nil)⟩
        (.node 1 "root" .nothing
          (.node 2 "a" .nothing (.node 5 "d" .nothing .nil .nil)
            (.node 3 "b" .nothing .nil .nil)) .nil) 10).1))).getD 0 .nil)
        = .node 5 "d" .nothing .nil .nil
    ∧ idOf ((chainOf (childOf ((TreeChange.apply
        ⟨.childAtIndex 0 (.childAtIndex 1 .here), .child,
          some (.node 6 "r" .nothing .nil .nil)⟩
        (.node 1 "root" .nothing
          (.node 2 "a" .nothing (.node 5 "d" .nothing .nil .nil)
            (.node 3 "b" .nothing .nil .nil)) .nil) 10).1))).getD 0 .nil) ≠ 2 := by
  decide

/-- C1 witness: the amended theorem at the counterexample's tree and
change (position 1 of a two-child chain, supply 10). -/
theorem spec_c1_witness :
    tagOf ((TreeChange.perform_apply
        (.node 1 "root" .nothing
          (.node 2 "a" .nothing (.node 5 "d" .nothing .nil .nil)
            (.node 3 "b" .nothing .nil .nil)) .nil)
        (.childAtIndex 1 .here) .child (some (.node 6 "r" .nothing .nil .nil)) 10).1)
      = tagOf (OTree.node 1 "root" .nothing
          (.node 2 "a" .nothing (.node 5 "d" .nothing .nil .nil)
            (.node 3 "b" .nothing .nil .nil)) .nil)
    ∧ valOf ((TreeChange.perform_apply
        (.node 1 "root" .nothing
          (.node 2 "a" .nothing (.node 5 "d" .nothing .nil .nil)
            (.node 3 "b" .nothing .nil .nil)) .nil)
        (.childAtIndex 1 .here) .child (some (.node 6 "r" .nothing .nil .nil)) 10).1)
      = valOf (OTree.node 1 "root" .nothing
          (.node 2 "a" .nothing (.node 5 "d" .nothing .nil .nil)
            (.node 3 "b" .nothing .nil .nil)) .nil)
    ∧ sibOf ((TreeChange.perform_apply
        (.node 1 "root" .nothing
          (.node 2 "a" .nothing (.node 5 "d" .nothing .nil .nil)
            (.node 3 "b" .nothing .nil .nil)) .nil)
        (.childAtIndex 1 .here) .child (some (.node 6 "r" .nothing .nil .nil)) 10).1)
      = sibOf (OTree.node 1 "root" .nothing
          (.node 2 "a" .nothing (.node 5 "d" .nothing .nil .nil)
            (.node 3 "b" .nothing .nil .nil)) .nil)
    ∧ ((chainOf (childOf ((TreeChange.perform_apply
        (.node 1 "root" .nothing
          (.node 2 "a" .nothing (.node 5 "d" .nothing .nil .nil)
            (.node 3 "b" .nothing .nil .nil)) .nil)
        (.childAtIndex 1 .here) .child (some (.node 6 "r" .nothing .nil .nil)) 10).1))).map
        tagOf).take 1
      = ((chainOf (childOf (OTree.node 1 "root" .nothing
          (.node 2 "a" .nothing (.node 5 "d" .nothing .nil .nil)
            (.node 3 "b" .nothing .nil .nil)) .nil))).map tagOf).take 1
    ∧ ((chainOf (childOf ((TreeChange.perform_apply
        (.node 1 "root" .nothing
          (.node 2 "a" .nothing (.node 5 "d" .nothing .nil .nil)
            (.node 3 "b" .nothing .nil .nil)) .nil)
        (.childAtIndex 1 .here) .child (some (.node 6 "r" .nothing .nil .nil)) 10).1))).map
        valOf).take 1
      = ((chainOf (childOf (OTree.node 1 "root" .nothing
          (.node 2 "a" .nothing (.node 5 "d" .nothing .nil .nil)
            (.node 3 "b" .nothing .nil .nil)) .nil))).map valOf).take 1
    ∧ ((chainOf (childOf ((TreeChange.perform_apply
        (.node 1 "root" .nothing
          (.node 2 "a" .nothing (.node 5 "d" .nothing .nil .nil)
            (.node 3 "b" .nothing .nil .nil)) .nil)
        (.childAtIndex 1 .here) .child (some (.node 6 "r" .nothing .nil .nil)) 10).1))).map
        childOf).take 1
      = ((chainOf (childOf (OTree.node 1 "root" .nothing
          (.node 2 "a" .nothing (.node 5 "d" .nothing .nil .nil)
            (.node 3 "b" .nothing .nil .nil)) .nil))).map childOf).take 1
    ∧ (chainOf (childOf ((TreeChange.perform_apply
        (.node 1 "root" .nothing
          (.node 2 "a" .nothing (.node 5 "d" .nothing .nil .nil)
            (.node 3 "b" .nothing .nil .nil)) .nil)
        (.childAtIndex 1 .here) .child (some (.node 6 "r" .nothing .nil .nil)) 10).1))).drop 1
      = chainOf ((TreeChange.perform_apply (dropChain 1 (childOf (OTree.node 1 "root" .nothing
          (.node 2 "a" .nothing (.node 5 "d" .nothing .nil .nil)
            (.node 3 "b" .nothing .nil .nil)) .nil))) .here .child
          (some (.node 6 "r" .nothing .nil .nil)) 10).1)
    ∧ (chainOf (childOf ((TreeChange.perform_apply
        (.node 1 "root" .nothing
          (.node 2 "a" .nothing (.node 5 "d" .nothing .nil .nil)
            (.node 3 "b" .nothing .nil .nil)) .nil)
        (.childAtIndex 1 .here) .child (some (.node 6 "r" .nothing .nil .nil)) 10).1))).drop
        (1 + 1)
      = (chainOf (childOf (OTree.node 1 "root" .nothing
          (.node 2 "a" .nothing (.node 5 "d" .nothing .nil .nil)
            (.node 3 "b" .nothing .nil .nil)) .nil))).drop (1 + 1) :=
  spec_c1
    (.node 1 "root" .nothing
      (.node 2 "a" .nothing (.node 5 "d" .nothing .nil .nil)
        (.node 3 "b" .nothing .nil .nil)) .nil)
    1 .here (some (.node 6 "r" .nothing .nil .nil)) 10 (by decide)

theorem placeholders_length : ∀ (m n : Nat), (placeholders m n).length = m := by
  intro m
  induction m with
  | zero => intro n; rfl
  | succ j ih => intro n; simp [placeholders, ih]

theorem placeholders_map {β : Type} (f : OTree → β) (pv : β)
    (hf : ∀ m : Nat, f (.node m "" .nothing .nil .nil) = pv) :
    ∀ (m n : Nat), (placeholders m n).map f = List.replicate m pv := by
  intro m
  induction m with
  | zero => intro n; rfl
  | succ j ih => intro n; simp [placeholders, hf, ih, List.replicate_succ]

theorem rebuild_on_append {β : Type} (f : OTree → β)
    (hf : ∀ (m : Nat) (s inner : OTree),
      f (.node m (tagOf s) (valOf s) (childOf s) inner) = f s)
    (l1 l2 : List OTree) (cur : OTree) (nn : Nat) :
    ((chainOf ((TreeChange.rebuild_chain (l1 ++ l2) cur nn).1)).map f).take l1.length
      = l1.map f
    ∧ (((chainOf ((TreeChange.rebuild_chain (l1 ++ l2) cur nn).1)).map f).drop
        l1.length).take l2.length = l2.map f := by
  rw [chain_rebuild_map f hf (l1 ++ l2) cur nn, List.map_append, List.append_assoc]
  constructor
  · rw [List.take_append_eq_append_take]
    have h1 : (l1.map f).length = l1.length := List.length_map l1 f
    rw [h1, Nat.sub_self, List.take_zero, List.append_nil,
      List.take_of_length_le (Nat.le_of_eq h1)]
  · rw [List.drop_append_eq_append_drop]
    have h1 : (l1.map f).length = l1.length := List.length_map l1 f
    rw [h1, Nat.sub_self, List.drop_of_length_le (Nat.le_of_eq h1), List.nil_append,
      List.drop_zero, List.take_append_eq_append_take]
    have h2 : (l2.map f).length = l2.length := List.length_map l2 f
    rw [h2, Nat.sub_self, List.take_zero, List.append_nil,
      List.take_of_length_le (Nat.le_of_eq h2)]

/-- C9: when a change's address walks to child position `i` at or beyond
the end of the sibling chain, `apply` does not fail: the original children
keep their tags, values and shared child references; every missing
position up to `i` is filled with a synthesized empty placeholder node
(empty tag, no value, no children); and the edit is performed at position
`i` on one more freshly synthesized empty placeholder — addressing a
not-yet-existing position inserts new children. -/
theorem spec_c9 (t : OTree) (i : Nat) (rest : TreeAddress) (ct : TreeChangeType)
    (rt : Option OTree) (n : Nat)
    (hik : (chainOf (childOf t)).length ≤ i) :
    ((chainOf (childOf ((TreeChange.perform_apply t (.childAtIndex i rest) ct rt n).1))).map
        tagOf).take (chainOf (childOf t)).length = (chainOf (childOf t)).map tagOf
    ∧ ((chainOf (childOf ((TreeChange.perform_apply t (.childAtIndex i rest) ct rt n).1))).map
        valOf).take (chainOf (childOf t)).length = (chainOf (childOf t)).map valOf
    ∧ ((chainOf (childOf ((TreeChange.perform_apply t (.childAtIndex i rest) ct rt n).1))).map
        childOf).take (chainOf (childOf t)).length = (chainOf (childOf t)).map childOf
    ∧ (((chainOf (childOf ((TreeChange.perform_apply t (.childAtIndex i rest) ct rt n).1))).map
        tagOf).drop (chainOf (childOf t)).length).take (i - (chainOf (childOf t)).length)
        = List.replicate (i - (chainOf (childOf t)).length) ""
    ∧ (((chainOf (childOf ((TreeChange.perform_apply t (.childAtIndex i rest) ct rt n).1))).map
        valOf).drop (chainOf (childOf t)).length).take (i - (chainOf (childOf t)).length)
        = List.replicate (i - (chainOf (childOf t)).length) TreeValue.nothing
    ∧ (((chainOf (childOf ((TreeChange.perform_apply t (.childAtIndex i rest) ct rt n).1))).map
        childOf).drop (chainOf (childOf t)).length).take (i - (chainOf (childOf t)).length)
        = List.replicate (i - (chainOf (childOf t)).length) OTree.nil
    ∧ (chainOf (childOf ((TreeChange.perform_apply t (.childAtIndex i rest) ct rt n).1))).drop i
        = chainOf ((TreeChange.perform_apply
            (.node (n + (i - (chainOf (childOf t)).length)) "" .nothing .nil .nil) rest ct rt
            (n + (i - (chainOf (childOf t)).length) + 1)).1) := by
  have hshape := perform_apply_childAt_ge t i rest ct rt n hik
  set k := (chainOf (childOf t)).length with hk
  set m := i - k with hm
  set nc := TreeChange.perform_apply (.node (n + m) "" .nothing .nil .nil) rest ct rt
    (n + m + 1) with hncdef
  set L := chainOf (childOf t) ++ placeholders m n with hLdef
  have hcres : childOf ((TreeChange.perform_apply t (.childAtIndex i rest) ct rt n).1)
      = (TreeChange.rebuild_chain L nc.1 nc.2).1 := by
    rw [hshape]
    rfl
  have hLlen : L.length = i := by
    rw [hLdef, List.length_append, placeholders_length]
    omega
  have hfront : ∀ {β : Type} (f : OTree → β),
      (∀ (mm : Nat) (s inner : OTree),
        f (.node mm (tagOf s) (valOf s) (childOf s) inner) = f s) →
      ((chainOf ((TreeChange.rebuild_chain L nc.1 nc.2).1)).map f).take k
        = (chainOf (childOf t)).map f := by
    intro β f hf
    have := (rebuild_on_append f hf (chainOf (childOf t)) (placeholders m n) nc.1 nc.2).1
    rwa [← hk, ← hLdef] at this
  have hmid : ∀ {β : Type} (f : OTree → β) (pv : β),
      (∀ (mm : Nat) (s inner : OTree),
        f (.node mm (tagOf s) (valOf s) (childOf s) inner) = f s) →
      (∀ mm : Nat, f (.node mm "" .nothing .nil .nil) = pv) →
      (((chainOf ((TreeChange.rebuild_chain L nc.1 nc.2).1)).map f).drop k).take m
        = List.replicate m pv := by
    intro β f pv hf hpv
    have h2 := (rebuild_on_append f hf (chainOf (childOf t)) (placeholders m n) nc.1 nc.2).2
    rw [← hk, ← hLdef, placeholders_length] at h2
    rw [h2, placeholders_map f pv hpv]
  refine ⟨?_, ?_, ?_, ?_, ?_, ?_, ?_⟩
  · rw [hcres]
    exact hfront tagOf (fun mm s inner => rfl)
  · rw [hcres]
    exact hfront valOf (fun mm s inner => rfl)
  · rw [hcres]
    exact hfront childOf (fun mm s inner => rfl)
  · rw [hcres]
    exact hmid tagOf "" (fun mm s inner => rfl) (fun mm => rfl)
  · rw [hcres]
    exact hmid valOf TreeValue.nothing (fun mm s inner => rfl) (fun mm => rfl)
  · rw [hcres]
    exact hmid childOf OTree.nil (fun mm s inner => rfl) (fun mm => rfl)
  · rw [hcres]
    have := chain_rebuild_drop L nc.1 nc.2
    rwa [hLlen] at this

/-- C9 witness: the theorem at a two-child tree edited at position 4. -/
theorem spec_c9_witness :
    ((chainOf (childOf ((TreeChange.perform_apply
        (.node 1 "root" .nothing
          (.node 2 "a" (.int 1) .nil (.node 3 "b" (.int 2) .nil .nil)) .nil)
        (.childAtIndex 4 .here) .child (some (.node 6 "r" .nothing .nil .nil)) 10).1))).map
        tagOf).take (chainOf (childOf (OTree.node 1 "root" .nothing
          (.node 2 "a" (.int 1) .nil (.node 3 "b" (.int 2) .nil .nil)) .nil))).length
      = (chainOf (childOf (OTree.node 1 "root" .nothing
          (.node 2 "a" (.int 1) .nil (.node 3 "b" (.int 2) .nil .nil)) .nil))).map tagOf
    ∧ ((chainOf (childOf ((TreeChange.perform_apply
        (.node 1 "root" .nothing
          (.node 2 "a" (.int 1) .nil (.node 3 "b" (.int 2) .nil .nil)) .nil)
        (.childAtIndex 4 .here) .child (some (.node 6 "r" .nothing .nil .nil)) 10).1))).map
        valOf).take (chainOf (childOf (OTree.node 1 "root" .nothing
          (.node 2 "a" (.int 1) .nil (.node 3 "b" (.int 2) .nil .nil)) .nil))).length
      = (chainOf (childOf (OTree.node 1 "root" .nothing
          (.node 2 "a" (.int 1) .nil (.node 3 "b" (.int 2) .nil .nil)) .nil))).map valOf
    ∧ ((chainOf (childOf ((TreeChange.perform_apply
        (.node 1 "root" .nothing
          (.node 2 "a" (.int 1) .nil (.node 3 "b" (.int 2) .nil .nil)) .nil)
        (.childAtIndex 4 .here) .child (some (.node 6 "r" .nothing .nil .nil)) 10).1))).map
        childOf).take (chainOf (childOf (OTree.node 1 "root" .nothing
          (.node 2 "a" (.int 1) .nil (.node 3 "b" (.int 2) .nil .nil)) .nil))).length
      = (chainOf (childOf (OTree.node 1 "root" .nothing
          (.node 2 "a" (.int 1) .nil (.node 3 "b" (.int 2) .nil .nil)) .nil))).map childOf
    ∧ (((chainOf (childOf ((TreeChange.perform_apply
        (.node 1 "root" .nothing
          (.node 2 "a" (.int 1) .nil (.node 3 "b" (.int 2) .nil .nil)) .nil)
        (.childAtIndex 4 .here) .child (some (.node 6 "r" .nothing .nil .nil)) 10).1))).map
        tagOf).drop (chainOf (childOf (OTree.node 1 "root" .nothing
          (.node 2 "a" (.int 1) .nil (.node 3 "b" (.int 2) .nil .nil)) .nil))).length).take
        (4 - (chainOf (childOf (OTree.node 1 "root" .nothing
          (.node 2 "a" (.int 1) .nil (.node 3 "b" (.int 2) .nil .nil)) .nil))).length)
        = List.replicate (4 - (chainOf (childOf (OTree.node 1 "root" .nothing
          (.node 2 "a" (.int 1) .nil (.node 3 "b" (.int 2) .nil .nil)) .nil))).length) ""
    ∧ (((chainOf (childOf ((TreeChange.perform_apply
        (.node 1 "root" .nothing
          (.node 2 "a" (.int 1) .nil (.node 3 "b" (.int 2) .nil .nil)) .nil)
        (.childAtIndex 4 .here) .child (some (.node 6 "r" .nothing .nil .nil)) 10).1))).map
        valOf).drop (chainOf (childOf (OTree.node 1 "root" .nothing
          (.node 2 "a" (.int 1) .nil (.node 3 "b" (.int 2) .nil .nil)) .nil))).length).take
        (4 - (chainOf (childOf (OTree.node 1 "root" .nothing
          (.node 2 "a" (.int 1) .nil (.node 3 "b" (.int 2) .nil .nil)) .nil))).length)
        = List.replicate (4 - (chainOf (childOf (OTree.node 1 "root" .nothing
          (.node 2 "a" (.int 1) .nil
            (.node 3 "b" (.int 2) .nil .nil)) .nil))).length) TreeValue.nothing
    ∧ (((chainOf (childOf ((TreeChange.perform_apply
        (.node 1 "root" .nothing
          (.node 2 "a" (.int 1) .nil (.node 3 "b" (.int 2) .nil .nil)) .nil)
        (.childAtIndex 4 .here) .child (some (.node 6 "r" .nothing .nil .nil)) 10).1))).map
        childOf).drop (chainOf (childOf (OTree.node 1 "root" .nothing
          (.node 2 "a" (.int 1) .nil (.node 3 "b" (.int 2) .nil .nil)) .nil))).length).take
        (4 - (chainOf (childOf (OTree.node 1 "root" .nothing
          (.node 2 "a" (.int 1) .nil (.node 3 "b" (.int 2) .nil .nil)) .nil))).length)
        = List.replicate (4 - (chainOf (childOf (OTree.node 1 "root" .nothing
          (.node 2 "a" (.int 1) .nil (.node 3 "b" (.int 2) .nil .nil)) .nil))).length) OTree.nil
    ∧ (chainOf (childOf ((TreeChange.perform_apply
        (.node 1 "root" .nothing
          (.node 2 "a" (.int 1) .nil (.node 3 "b" (.int 2) .nil .nil)) .nil)
        (.childAtIndex 4 .here) .child (some (.node 6 "r" .nothing .nil .nil)) 10).1))).drop 4
      = chainOf ((TreeChange.perform_apply
          (.node (10 + (4 - (chainOf (childOf (OTree.node 1 "root" .nothing
            (.node 2 "a" (.int 1) .nil (.node 3 "b" (.int 2) .nil .nil)) .nil))).length))
            "" .nothing .nil .nil) .here .child (some (.node 6 "r" .nothing .nil .nil))
          (10 + (4 - (chainOf (childOf (OTree.node 1 "root" .nothing
            (.node 2 "a" (.int 1) .nil (.node 3 "b" (.int 2) .nil .nil)) .nil))).length + 1))).1) :=
  spec_c9
    (.node 1 "root" .nothing
      (.node 2 "a" (.int 1) .nil (.node 3 "b" (.int 2) .nil .nil)) .nil)
    4 .here .child (some (.node 6 "r" .nothing .nil .nil)) 10 (by decide)

/-- C5 evaluation at the failing input: the tree `root(a, b(e), c)` (values
1, 2, 3; `b` has a child `e`), edited by the removal change at child
position 1 — a `Sibling`-type edit with no replacement tree, the source's
only no-replacement edit aimed at the chain around `b`.  The result still
has all three children `a`, `b`, `c` with their values (`b` is *not*
removed, contradicting the claimed `root(a, c)`), and `b` has lost its
child `e`: the `Sibling`/`None` arm of `perform_replacement` calls
`clear_child()` instead of clearing the sibling. -/
theorem spec_c5_eval :
    (chainOf (childOf ((TreeChange.apply
        ⟨.childAtIndex 0 (.childAtIndex 1 .here), .sibling, none⟩
        (.node 1 "root" .nothing
          (.node 2 "a" (.int 1) .nil
            (.node 3 "b" (.int 2) (.node 6 "e" .nothing .nil .nil)
              (.node 4 "c" (.int 3) .nil .nil))) .nil) 100).1))).map tagOf
      = ["a", "b", "c"]
    ∧ (chainOf (childOf ((TreeChange.apply
        ⟨.childAtIndex 0 (.childAtIndex 1 .here), .sibling, none⟩
        (.node 1 "root" .nothing
          (.node 2 "a" (.int 1) .nil
            (.node 3 "b" (.int 2) (.node 6 "e" .nothing .nil .nil)
              (.node 4 "c" (.int 3) .nil .nil))) .nil) 100).1))).map valOf
      = [.int 1, .int 2, .int 3]
    ∧ childOf ((chainOf (childOf ((TreeChange.apply
        ⟨.childAtIndex 0 (.childAtIndex 1 .here), .sibling, none⟩
        (.node 1 "root" .nothing
          (.node 2 "a" (.int 1) .nil
            (.node 3 "b" (.int 2) (.node 6 "e" .nothing .nil .nil)
              (.node 4 "c" (.int 3) .nil .nil))) .nil) 100).1))).getD 1 .nil) = .nil := by
  decide

end ApplySharing

section Reentrancy

/-- Dispatch with callbacks that publish nothing reaches every matching
subscription in order and reports the same deliveries as the bus-side
dispatch model. -/
theorem go_subs_no_feedback (eff : Nat → TreeChange → List TreeChange)
    (heff : ∀ (j : Nat) (rc : TreeChange), eff j rc = []) (c : TreeChange)
    (rec : List Nat → TreeChange → POut) :
    ∀ (subs : List ConsumerRegistration) (i : Nat),
      go_subs eff rec i subs [] c
        = .ok ((deliveries_from i subs c).map (fun d => (d.1, d.2.2))) := by
  intro subs
  induction subs with
  | nil => intro i; rfl
  | cons r rest ih =>
      intro i
      rw [go_subs, deliveries_from]
      by_cases hflt : (c.applies_to r.address r.extent).getD false = true
      · rw [if_pos hflt, if_pos hflt]
        have hnb : (i ∈ ([] : List Nat)) = False := by simp
        rw [if_neg (by simp)]
        cases hrel : c.relative_to r.address with
        | some rc =>
            simp only [heff i rc, seq_run, ih (i + 1), List.map_cons, List.nil_append]
            rfl
        | none => exact ih (i + 1)
      · rw [if_neg hflt, if_neg hflt]
        exact ih (i + 1)

/-- C6 counterexample: one subscription at `Here` with `SubTree` extent
whose callback republishes a change on the same publisher.  Publishing a
change at `.1` matches the subscription; during its callback the
republish re-enters `call_subscriptions`, reaches the same subscription
(still borrowed), and the nested `borrow_mut` fails: the dispatch ends in
a borrow panic instead of completing normally, refuting the claim that
same-publisher reentrant publishes complete without failure. -/
theorem spec_c6_counterexample :
    imm_publish [⟨.here, .subTree⟩]
      (fun _ _ => [⟨.childAtIndex 0 (.childAtIndex 1 .here), .child,
        some (.node 9 "z" .nothing .nil .nil)⟩]) 3 []
      ⟨.childAtIndex 0 (.childAtIndex 1 .here), .child,
        some (.node 8 "y" .nothing .nil .nil)⟩ = .borrowPanic := by
  decide

/-- C6 (amended): `ImmediatePublisher::publish` synchronously dispatches
to every matching subscription, in registration order, before returning —
when no callback publishes again on the same publisher the dispatch
completes normally with exactly the deliveries of the dispatch model.  A
reentrant publish on the same publisher, however, fails with a `RefCell`
borrow error as soon as it reaches a subscription whose callback is
currently executing (see the counterexample), exactly as the source
comment warns. -/
theorem spec_c6 (subs : List ConsumerRegistration)
    (eff : Nat → TreeChange → List TreeChange) (fuel : Nat) (c : TreeChange)
    (heff : ∀ (j : Nat) (rc : TreeChange), eff j rc = []) :
    imm_publish subs eff (fuel + 1) [] c
      = .ok ((deliveries subs c).map (fun d => (d.1, d.2.2))) := by
  rw [imm_publish, deliveries]
  exact go_subs_no_feedback eff heff c _ subs 0

/-- C6 witness: two subscriptions, non-publishing callbacks; the dispatch
completes with both deliveries in order. -/
theorem spec_c6_witness :
    imm_publish [⟨.here, .subTree⟩, ⟨.childAtIndex 1 .here, .subTree⟩]
      (fun _ _ => []) 1 []
      ⟨.childAtIndex 0 (.childAtIndex 1 .here), .child,
        some (.node 8 "y" .nothing .nil .nil)⟩
      = .ok ((deliveries [⟨.here, .subTree⟩, ⟨.childAtIndex 1 .here, .subTree⟩]
          ⟨.childAtIndex 0 (.childAtIndex 1 .here), .child,
            some (.node 8 "y" .nothing .nil .nil)⟩).map (fun d => (d.1, d.2.2))) :=
  spec_c6 [⟨.here, .subTree⟩, ⟨.childAtIndex 1 .here, .subTree⟩]
    (fun _ _ => []) 0
    ⟨.childAtIndex 0 (.childAtIndex 1 .here), .child,
      some (.node 8 "y" .nothing .nil .nil)⟩
    (fun _ _ => rfl)

end Reentrancy

section HubPublish

/-- C7 evaluation at the failing input: `publish_to(.1)` is given a change
the user addressed at local `.2` (`root = .0.2`, a `Child` replacement).
The source's hub callback computes `change.relative_to(.1)` — the forward,
prefix-stripping translation — which is `None`, so nothing reaches the
bus; the specified inverse translation would push the change re-addressed
to `.1.2`.  A second probe: a local change at `.1.5` is pushed as a change
at `.5` (its `.1` prefix *stripped*), again the forward translation
instead of prefixing. -/
theorem spec_c7_eval :
    publish_to_bus_change (.childAtIndex 1 .here)
      ⟨.childAtIndex 0 (.childAtIndex 2 .here), .child,
        some (.node 7 "x" .nothing .nil .nil)⟩ = none
    ∧ publish_to_spec (.childAtIndex 1 .here)
        ⟨.childAtIndex 0 (.childAtIndex 2 .here), .child,
          some (.node 7 "x" .nothing .nil .nil)⟩
      = ⟨.childAtIndex 0 (.childAtIndex 1 (.childAtIndex 2 .here)), .child,
          some (.node 7 "x" .nothing .nil .nil)⟩
    ∧ publish_to_bus_change (.childAtIndex 1 .here)
        ⟨.childAtIndex 0 (.childAtIndex 1 (.childAtIndex 5 .here)), .child,
          some (.node 7 "x" .nothing .nil .nil)⟩
      = some ⟨.childAtIndex 0 (.childAtIndex 5 .here), .child,
          some (.node 7 "x" .nothing .nil .nil)⟩
    ∧ publish_to_spec (.childAtIndex 1 .here)
        ⟨.childAtIndex 0 (.childAtIndex 1 (.childAtIndex 5 .here)), .child,
          some (.node 7 "x" .nothing .nil .nil)⟩
      = ⟨.childAtIndex 0 (.childAtIndex 1 (.childAtIndex 1 (.childAtIndex 5 .here))), .child,
          some (.node 7 "x" .nothing .nil .nil)⟩ := by
  decide

end HubPublish
